import Mathlib

set_option maxHeartbeats 1000000

/-!
Verification of the dysumi file worker (`src/lib/workers/file-worker.ts`).

This file gives a shallow functional embedding of the worker's path
utilities, name validation, per-path lock table, and the `FileProcessor`
operations over a model of the two stores it mediates: the external
handle tree persisted in the `handles-store` registry, and the OPFS
`draft-store` staging area.  Directories of both stores are modelled as
association lists from entry name to node; asynchronous browser-API
calls become explicit state passing, and rejected promises become
`Except` errors.
-/

/-- A node of a file-system handle tree: a file with its text content, or a
directory with named child entries. -/
inductive ExtNode where
  | file (content : String)
  | dir (entries : List (String × ExtNode))

/-- Entries of one directory: an association list from name to node. -/
abbrev DirE := List (String × ExtNode)

/-- Whether the node is a directory (`handle.kind === "directory"`). -/
def ExtNode.isDir : ExtNode → Bool
  | ExtNode.dir _ => true
  | ExtNode.file _ => false

/-- Whether the node is a file (`handle.kind === "file"`). -/
def ExtNode.isFile : ExtNode → Bool
  | ExtNode.file _ => true
  | ExtNode.dir _ => false

/-- Lookup in an association list keyed by strings (models `Map.get`,
`db.get`, and a directory handle's child lookup). -/
def findE {α : Type} : List (String × α) → String → Option α
  | [], _ => none
  | (k, v) :: r, n => if k = n then some v else findE r n

/-- Insert or replace the binding for a key (models writing an entry). -/
def setE {α : Type} : List (String × α) → String → α → List (String × α)
  | [], n, v => [(n, v)]
  | (k, x) :: r, n, v => if k = n then (n, v) :: r else (k, x) :: setE r n v

/-- Remove the binding for a key (models `Map.delete` / `removeEntry`). -/
def eraseE {α : Type} : List (String × α) → String → List (String × α)
  | [], _ => []
  | (k, x) :: r, n => if k = n then r else (k, x) :: eraseE r n

theorem findE_setE_self {α : Type} (l : List (String × α)) (n : String) (v : α) :
    findE (setE l n v) n = some v := by
  induction l with
  | nil => simp [setE, findE]
  | cons h t ih =>
    obtain ⟨k, x⟩ := h
    by_cases hk : k = n <;> simp [setE, findE, hk, ih]

theorem findE_setE_ne {α : Type} (l : List (String × α)) (n m : String) (v : α)
    (h : n ≠ m) : findE (setE l n v) m = findE l m := by
  induction l with
  | nil => simp [setE, findE, h]
  | cons hd t ih =>
    obtain ⟨k, x⟩ := hd
    by_cases hk : k = n
    · subst hk
      simp [setE, findE, h]
    · simp only [setE, if_neg hk, findE]
      by_cases hm : k = m <;> simp [hm, ih]

theorem setE_of_findE {α : Type} (l : List (String × α)) (n : String) (v : α)
    (h : findE l n = some v) : setE l n v = l := by
  induction l with
  | nil => simp [findE] at h
  | cons hd t ih =>
    obtain ⟨k, x⟩ := hd
    by_cases hk : k = n
    · subst hk
      simp [findE] at h
      simp [setE, h]
    · simp [findE, hk] at h
      simp [setE, hk, ih h]

theorem findE_eraseE_self {α : Type} (l : List (String × α)) (n : String)
    (hnd : (l.map Prod.fst).Nodup) : findE (eraseE l n) n = none := by
  induction l with
  | nil => simp [eraseE, findE]
  | cons hd t ih =>
    obtain ⟨k, x⟩ := hd
    simp only [List.map_cons, List.nodup_cons] at hnd
    by_cases hk : k = n
    · subst hk
      simp only [eraseE, if_pos rfl]
      -- k does not occur in t, so lookup fails
      clear ih
      induction t with
      | nil => simp [findE]
      | cons hd2 t2 ih2 =>
        obtain ⟨k2, x2⟩ := hd2
        simp only [List.map_cons, List.mem_cons, List.nodup_cons] at hnd
        have hne : k2 ≠ k := fun h => hnd.1 (Or.inl h.symm)
        simp only [findE, if_neg hne]
        exact ih2 ⟨fun h => hnd.1 (Or.inr h), hnd.2.2⟩
    · simp only [eraseE, if_neg hk, findE, if_neg hk]
      exact ih hnd.2

theorem findE_eraseE_ne {α : Type} (l : List (String × α)) (n m : String)
    (h : n ≠ m) : findE (eraseE l n) m = findE l m := by
  induction l with
  | nil => simp [eraseE]
  | cons hd t ih =>
    obtain ⟨k, x⟩ := hd
    by_cases hk : k = n
    · subst hk
      simp [eraseE, findE, h]
    · simp only [eraseE, if_neg hk, findE]
      by_cases hm : k = m <;> simp [hm, ih]

/-! ## Path utilities -/

/-- Split a character list at each occurrence of `sep`
(the model of JavaScript `String.prototype.split` with a one-character
separator). -/
def splitChar (sep : Char) : List Char → List (List Char)
  | [] => [[]]
  | c :: r =>
    let rest := splitChar sep r
    if c = sep then [] :: rest
    else
      match rest with
      | [] => [[c]]
      | h :: t => (c :: h) :: t

/-- JavaScript `path.split("/")`. -/
def jsSplit (s : String) : List String :=
  (splitChar '/' s.data).map String.mk

/-- JavaScript `array.join(sep)`. -/
def joinSep (sep : String) : List String → String
  | [] => ""
  | [s] => s
  | s :: r => s ++ sep ++ joinSep sep r

/-- Strip a single leading and a single trailing slash
(the worker's `replaceAll(/((?:^\/)|(?:\/$))/gm, "")`). -/
def stripSlashes (s : String) : String :=
  let l1 : List Char :=
    match s.data with
    | '/' :: r => r
    | l => l
  let l2 := if l1.getLast? = some '/' then l1.dropLast else l1
  String.mk l2

/-- `pathToSegments` from the worker: strip outer slashes, split on `/`. -/
def pathToSegments (path : String) : List String :=
  jsSplit (stripSlashes path)

example : pathToSegments "/a/b/" = ["a", "b"] := rfl
example : pathToSegments "/" = [""] := rfl
example : pathToSegments "" = [""] := rfl
example : pathToSegments "a//b" = ["a", "", "b"] := rfl
example : jsSplit "docs/notes.md" = ["docs", "notes.md"] := rfl

/-! ## Name validation -/

/-- Result record of `validateDirectoryName` (`{ isValid, error? }`). -/
structure ValidationResult where
  isValid : Bool
  error : Option String := none

/-- One character matches the worker's invalid-character class
`[<>:"/\\|?*\x00-\x1f]`. -/
def isInvalidChar (c : Char) : Bool :=
  c == '<' || c == '>' || c == ':' || c == '"' || c == '/' || c == '\\' ||
    c == '|' || c == '?' || c == '*' || decide (c.toNat < 32)

/-- The reserved device names of `/^(CON|PRN|AUX|NUL|COM[1-9]|LPT[1-9])$/i`. -/
def reservedNames : List String :=
  ["CON", "PRN", "AUX", "NUL",
   "COM1", "COM2", "COM3", "COM4", "COM5", "COM6", "COM7", "COM8", "COM9",
   "LPT1", "LPT2", "LPT3", "LPT4", "LPT5", "LPT6", "LPT7", "LPT8", "LPT9"]

/-- ASCII upper-casing, the case folding the `/i` regex flag performs on the
(all-ASCII) reserved-name alternatives. -/
def toUpperAscii (s : String) : String :=
  String.mk (s.data.map Char.toUpper)

/-- JavaScript `name.startsWith(".")`. -/
def startsWithDot (s : String) : Bool :=
  match s.data with
  | c :: _ => c = '.'
  | [] => false

/-- JavaScript `name.endsWith(".")`. -/
def endsWithDot (s : String) : Bool :=
  match s.data.getLast? with
  | some c => c = '.'
  | none => false

/-- `validateDirectoryName` from the worker, check for check. -/
def validateDirectoryName (name : String) : ValidationResult :=
  if name = "" ∨ name.length = 0 ∨ 255 < name.length ∨ name = "." ∨ name = ".." then
    { isValid := false, error := some "Name must be between 1 and 255 characters" }
  else if name.data.any isInvalidChar then
    { isValid := false, error := some "Name contains invalid characters" }
  else if toUpperAscii name ∈ reservedNames then
    { isValid := false, error := some "Name is reserved" }
  else if startsWithDot name = true ∨ endsWithDot name = true then
    { isValid := false, error := some "Name cannot start or end with a dot" }
  else { isValid := true }

example : (validateDirectoryName "notes.md").isValid = true := by decide
example : (validateDirectoryName "..").isValid = false := by decide
example : (validateDirectoryName "com7").isValid = false := by decide
example : (validateDirectoryName "a/b").isValid = false := by decide
example : (validateDirectoryName ".hidden").isValid = false := by decide
example : (validateDirectoryName "trailing.").isValid = false := by decide

theorem any_isInvalidChar_iff (name : String) :
    name.data.any isInvalidChar = true ↔
      ∃ c ∈ name.data,
        (c = '<' ∨ c = '>' ∨ c = ':' ∨ c = '"' ∨ c = '/' ∨ c = '\\' ∨
         c = '|' ∨ c = '?' ∨ c = '*' ∨ c.toNat < 32) := by
  simp only [List.any_eq_true, isInvalidChar, Bool.or_eq_true, beq_iff_eq,
    decide_eq_true_eq]
  constructor <;> rintro ⟨c, hc, h⟩ <;> exact ⟨c, hc, by tauto⟩

/-- C7: for every string, the name validator returns a structured result and
rejects exactly the names that are empty, longer than 255 characters, equal
to `.` or `..`, contain a character from the reserved class or a control
character below 0x20, match a reserved device name case-insensitively, or
start or end with a dot. -/
theorem validateDirectoryName_invalid_iff (name : String) :
    (validateDirectoryName name).isValid = false ↔
      (name = "" ∨ 255 < name.length ∨ name = "." ∨ name = ".." ∨
       (∃ c ∈ name.data,
          (c = '<' ∨ c = '>' ∨ c = ':' ∨ c = '"' ∨ c = '/' ∨ c = '\\' ∨
           c = '|' ∨ c = '?' ∨ c = '*' ∨ c.toNat < 32)) ∨
       toUpperAscii name ∈ reservedNames ∨
       startsWithDot name = true ∨ endsWithDot name = true) := by
  have hlen : name.length = 0 ↔ name = "" := by
    constructor
    · intro h
      have he := @String.ext_iff name ""
      exact he.mpr (List.length_eq_zero.mp h)
    · intro h
      subst h
      rfl
  rw [← any_isInvalidChar_iff]
  unfold validateDirectoryName
  split_ifs with h1 h2 h3 h4
  · exact iff_of_true rfl (by tauto)
  · exact iff_of_true rfl (by tauto)
  · exact iff_of_true rfl (by tauto)
  · exact iff_of_true rfl (by tauto)
  · refine iff_of_false (by simp) ?_
    tauto

/-! ## Concurrency guard (`fileLocks` / `withFileLock`) -/

/-- Taxonomy of errors the worker throws. -/
inductive FPError where
  | rootRequired
  | rootNotFound
  | invalidPath
  | lockConflict (path : String)
  | invalidName (msg : String)
  | cannotReadDirectory
  | cannotWriteDirectory
  | unableToSave
  | invalidTargetPath
  | notFound
  | typeMismatch
  | invalidModification
  | cannotCreateInFile
  | cannotListFile
  | cannotCopyToFile
  | notImplemented
deriving DecidableEq

/-- The module-level `fileLocks` map: virtual path to the in-flight
operation's marker.  The marker (the `promise` identity plus timestamp in
the source) is abstracted to a token that identifies the installed entry. -/
abbrev LockTable := List (String × Nat)

/-- `withFileLock` from the worker, over an explicit lock table.
The operation itself may observe and transform the table; `tok` is the
identity of the entry this call installs. -/
def withFileLock {α : Type} (locks : LockTable) (fileName : String) (tok : Nat)
    (op : LockTable → Except FPError α × LockTable) :
    Except FPError α × LockTable :=
  if (findE locks fileName).isSome then
    (Except.error (FPError.lockConflict fileName), locks)
  else
    let r := op ((fileName, tok) :: locks)
    if findE r.2 fileName = some tok then (r.1, eraseE r.2 fileName)
    else (r.1, r.2)

theorem findE_isSome_of_mem_keys {α : Type} (l : List (String × α)) (p : String)
    (hmem : p ∈ l.map Prod.fst) : (findE l p).isSome = true := by
  induction l with
  | nil => simp at hmem
  | cons hd t ih =>
    obtain ⟨k, v⟩ := hd
    simp only [List.map_cons, List.mem_cons] at hmem
    by_cases hk : k = p
    · simp [findE, hk]
    · simp only [findE, if_neg hk]
      rcases hmem with hk2 | ht
      · exact absurd hk2.symm hk
      · exact ih ht

/-- C4: the concurrency guard fails immediately with a lock-conflict error
when an entry already exists for the path — without running the operation
and without queueing — and otherwise installs an entry (keeping at most one
live entry per path), runs the operation, and on settlement removes the
entry only if it is still the very entry it installed. -/
theorem withFileLock_spec {α : Type} (locks : LockTable) (p : String) (tok : Nat)
    (op : LockTable → Except FPError α × LockTable) :
    ((findE locks p).isSome = true →
       withFileLock locks p tok op = (Except.error (FPError.lockConflict p), locks)) ∧
    (findE locks p = none →
       ((findE (op ((p, tok) :: locks)).2 p = some tok →
           withFileLock locks p tok op =
             ((op ((p, tok) :: locks)).1, eraseE (op ((p, tok) :: locks)).2 p)) ∧
        (findE (op ((p, tok) :: locks)).2 p ≠ some tok →
           withFileLock locks p tok op = ((op ((p, tok) :: locks)).1, (op ((p, tok) :: locks)).2)))) ∧
    (findE locks p = none → (locks.map Prod.fst).Nodup →
       (((p, tok) :: locks).map Prod.fst).Nodup) := by
  refine ⟨?_, ?_, ?_⟩
  · intro h
    unfold withFileLock
    rw [if_pos h]
  · intro h
    constructor
    · intro hsame
      unfold withFileLock
      rw [if_neg (by simp [h]), if_pos hsame]
    · intro hdiff
      unfold withFileLock
      rw [if_neg (by simp [h]), if_neg hdiff]
  · intro h hnd
    simp only [List.map_cons, List.nodup_cons]
    refine ⟨?_, hnd⟩
    intro hmem
    have hsome := findE_isSome_of_mem_keys locks p hmem
    rw [h] at hsome
    simp at hsome

/-- Witness for `withFileLock_spec` at a concrete table and operation. -/
theorem withFileLock_spec_witness :
    withFileLock ([] : LockTable) "a" 0
        (fun l => ((Except.ok 7 : Except FPError Nat), l)) =
      (Except.ok 7, []) := by
  have h := (withFileLock_spec ([] : LockTable) "a" 0
    (fun l => ((Except.ok 7 : Except FPError Nat), l))).2.1 rfl
  have h2 := h.1 rfl
  simpa using h2

/-! ## Handle resolution and worker state -/

/-- The worker's mutable state: the `handles-store` registry (root name to
persisted handle tree), the OPFS `draft-store` directory (`none` while the
draft root has not been created), and the lock table.  Lock entries held by
other in-flight operations are visible to each operation through `locks`;
an operation's own lock is installed and removed within the operation, so
its net effect on `locks` is nil in this sequential model. -/
@[ext] structure FPState where
  registry : DirE
  opfs : Option DirE
  locks : LockTable

/-- Walk the remaining path segments from a handle
(the loop in `getHandle`: every non-terminal node must be a directory,
and each segment is looked up with `getFileSystemHandle`). -/
def descend (h : ExtNode) : List String → Except FPError ExtNode
  | [] => Except.ok h
  | seg :: rest =>
    match h with
    | ExtNode.file _ => Except.error FPError.invalidPath
    | ExtNode.dir es =>
      match findE es seg with
      | none => Except.error FPError.invalidPath
      | some h2 => descend h2 rest

/-- `getHandle(path)` without `type: "opfs"`: the root segment is read from
the idb registry, the rest is walked in the external tree.  Permission
queries are modelled as granted. -/
def getHandleExt (reg : DirE) (path : String) : Except FPError ExtNode :=
  match pathToSegments path with
  | [] => Except.error FPError.rootRequired
  | root :: rest =>
    if root = "" then Except.error FPError.rootRequired
    else
      match findE reg root with
      | none => Except.error FPError.rootNotFound
      | some h => descend h rest

/-- `getHandle(path, { type: "opfs" })`: the `draft-store` directory is
created on demand (a side effect kept even when resolution then fails), the
root segment is looked up inside it, and the rest is walked as usual. -/
def getHandleOpfs (opfs : Option DirE) (path : String) :
    Option DirE × Except FPError ExtNode :=
  match pathToSegments path with
  | [] => (opfs, Except.error FPError.rootRequired)
  | root :: rest =>
    if root = "" then (opfs, Except.error FPError.rootRequired)
    else
      let d := opfs.getD []
      (some d, descend (ExtNode.dir d) (root :: rest))

/-- Update the entry list reached by walking `segs` from a directory's
entries (the functional write-back for mutations made through a resolved
directory handle). -/
def updateDirAt (f : DirE → Except FPError DirE) :
    List String → DirE → Except FPError DirE
  | [], d => f d
  | seg :: rest, d =>
    match findE d seg with
    | some (ExtNode.dir es) =>
      (updateDirAt f rest es).map (fun es2 => setE d seg (ExtNode.dir es2))
    | _ => Except.error FPError.invalidPath

/-- Update the directory reached by an external path (root from the
registry, then `updateDirAt`). -/
def updateExtAt (reg : DirE) (path : String) (f : DirE → Except FPError DirE) :
    Except FPError DirE :=
  match pathToSegments path with
  | [] => Except.error FPError.rootRequired
  | root :: rest =>
    if root = "" then Except.error FPError.rootRequired
    else
      match findE reg root with
      | none => Except.error FPError.rootNotFound
      | some (ExtNode.file _) => Except.error FPError.invalidPath
      | some (ExtNode.dir es) =>
        (updateDirAt f rest es).map (fun es2 => setE reg root (ExtNode.dir es2))

/-- `removeEntry(name, { recursive })` on a directory's entries: rejects a
missing entry with a not-found error, and a non-empty directory with an
invalid-modification error unless `recursive` is set. -/
def removeEntryE (es : DirE) (name : String) (recursive : Bool) :
    Except FPError DirE :=
  match findE es name with
  | none => Except.error FPError.notFound
  | some (ExtNode.file _) => Except.ok (eraseE es name)
  | some (ExtNode.dir sub) =>
    if recursive || sub.isEmpty then Except.ok (eraseE es name)
    else Except.error FPError.invalidModification

/-! ## The FileProcessor operations -/

namespace FileWorker

/-- The merged entry `read` returns (name, path, kind flags, dirty flag,
text content, size). -/
structure ReadResult where
  name : String
  fullPath : String
  isDirectory : Bool
  isFile : Bool
  isDirty : Option Bool
  content : String
  size : Nat

/-- The `name` of the file a path resolves to (its last segment). -/
def fileNameOf (path : String) : String :=
  (pathToSegments path).getLastD ""

/-- `read(path)`: resolve the path in both stores (the staging failure is
swallowed), require the external node to be a file, and serve the staged
content tagged `isDirty` when a staged file exists, the external content
otherwise. -/
def read (st : FPState) (path : String) : Except FPError ReadResult × FPState :=
  let p := getHandleOpfs st.opfs path
  let st2 : FPState := { st with opfs := p.1 }
  match getHandleExt st.registry path with
  | Except.error e => (Except.error e, st2)
  | Except.ok (ExtNode.dir _) => (Except.error FPError.cannotReadDirectory, st2)
  | Except.ok (ExtNode.file c) =>
    match p.2 with
    | Except.ok (ExtNode.file sc) =>
      (Except.ok { name := fileNameOf path, fullPath := path, isDirectory := false,
                   isFile := true, isDirty := some true, content := sc,
                   size := sc.length }, st2)
    | _ =>
      (Except.ok { name := fileNameOf path, fullPath := path, isDirectory := false,
                   isFile := true, isDirty := none, content := c,
                   size := c.length }, st2)

/-- `close(path?)`: with no (or an empty) path, remove the whole
`draft-store` recursively; otherwise, under the per-path lock, resolve the
parent inside the staging store (`path.split("/")`, parent joined back, or
`"/"` when empty) and `removeEntry` the final name non-recursively. -/
def close (st : FPState) (path? : Option String) : Except FPError Unit × FPState :=
  let pth := path?.getD ""
  if pth = "" then
    match st.opfs with
    | none => (Except.error FPError.notFound, st)
    | some _ => (Except.ok (), { st with opfs := none })
  else if (findE st.locks pth).isSome then
    (Except.error (FPError.lockConflict pth), st)
  else
    let parts := jsSplit pth
    let name := parts.getLastD ""
    let pp := joinSep "/" parts.dropLast
    let parentPath := if pp = "" then "/" else pp
    match pathToSegments parentPath with
    | [] => (Except.error FPError.rootRequired, st)
    | root :: rest =>
      if root = "" then (Except.error FPError.rootRequired, st)
      else
        let d := st.opfs.getD []
        match updateDirAt (fun es => removeEntryE es name false) (root :: rest) d with
        | Except.ok d2 => (Except.ok (), { st with opfs := some d2 })
        | Except.error e => (Except.error e, { st with opfs := some d })

example :
    (read ⟨[("docs", ExtNode.dir [("notes.md", ExtNode.file "ext")])],
           some [("docs", ExtNode.dir [("notes.md", ExtNode.file "draft")])], []⟩
      "docs/notes.md").1 =
    Except.ok { name := "notes.md", fullPath := "docs/notes.md",
                isDirectory := false, isFile := true, isDirty := some true,
                content := "draft", size := 5 } := rfl

example :
    (close ⟨[("docs", ExtNode.dir [("notes.md", ExtNode.file "ext")])],
            some [("docs", ExtNode.dir [("notes.md", ExtNode.file "draft")])], []⟩
      (some "docs/notes.md")).2.opfs = some [("docs", ExtNode.dir [])] := rfl

example :
    (close ⟨[], some [("notes.md", ExtNode.file "draft")], []⟩
      (some "notes.md")).1 = Except.error FPError.rootRequired := rfl

/-- C1: with a staged file node at a path whose external node is a file,
`read` serves the staged content with `isDirty = true`; `close` removes
exactly that staged node; afterwards `read` serves the external content
with no dirty tag; and `read` fails whenever the external store resolves
no node at the path. -/
theorem read_staged_then_close_spec
    (st : FPState) (P r n c cs : String) (d oes : DirE)
    (hsegs : pathToSegments P = [r, n])
    (hsplit : jsSplit P = [r, n])
    (hr : pathToSegments r = [r])
    (hr0 : r ≠ "")
    (hext : getHandleExt st.registry P = Except.ok (ExtNode.file c))
    (hopfs : st.opfs = some d)
    (hdr : findE d r = some (ExtNode.dir oes))
    (hstag : findE oes n = some (ExtNode.file cs))
    (hnd : (oes.map Prod.fst).Nodup)
    (hlock : findE st.locks P = none) :
    read st P =
      (Except.ok { name := n, fullPath := P, isDirectory := false, isFile := true,
                   isDirty := some true, content := cs, size := cs.length }, st) ∧
    close st (some P) =
      (Except.ok (),
       { st with opfs := some (setE d r (ExtNode.dir (eraseE oes n))) }) ∧
    read { st with opfs := some (setE d r (ExtNode.dir (eraseE oes n))) } P =
      (Except.ok { name := n, fullPath := P, isDirectory := false, isFile := true,
                   isDirty := none, content := c, size := c.length },
       { st with opfs := some (setE d r (ExtNode.dir (eraseE oes n))) }) ∧
    (∀ (stx : FPState) (Px : String) (e : FPError),
        getHandleExt stx.registry Px = Except.error e →
        (read stx Px).1 = Except.error e) := by
  have hP0 : P ≠ "" := by
    intro h
    rw [h, show jsSplit "" = [""] from rfl] at hsplit
    simp at hsplit
  obtain ⟨reg, sop, lk⟩ := st
  simp only at hext hopfs hlock
  subst hopfs
  refine ⟨?_, ?_, ?_, ?_⟩
  · simp [read, getHandleOpfs, hsegs, hr0, hdr, descend, hstag, hext, fileNameOf]
  · simp only [close, Option.getD, if_neg hP0, hlock, Option.isSome_none,
      Bool.false_eq_true, if_false, hsplit]
    simp only [List.dropLast, List.getLastD, joinSep]
    rw [if_neg hr0]
    simp only [hr]
    rw [if_neg hr0]
    simp [updateDirAt, hdr, removeEntryE, hstag, Except.map]
  · simp [read, getHandleOpfs, hsegs, hr0, findE_setE_self,
      descend, findE_eraseE_self oes n hnd, hext, fileNameOf]
  · intro stx Px e hx
    simp [read, hx]

/-- Witness for `read_staged_then_close_spec` at a concrete state. -/
theorem read_staged_then_close_witness :
    read ⟨[("docs", ExtNode.dir [("notes.md", ExtNode.file "ext")])],
          some [("docs", ExtNode.dir [("notes.md", ExtNode.file "draft")])], []⟩
        "docs/notes.md" =
      (Except.ok { name := "notes.md", fullPath := "docs/notes.md",
                   isDirectory := false, isFile := true, isDirty := some true,
                   content := "draft", size := 5 },
       ⟨[("docs", ExtNode.dir [("notes.md", ExtNode.file "ext")])],
        some [("docs", ExtNode.dir [("notes.md", ExtNode.file "draft")])], []⟩) ∧
    read ⟨[("docs", ExtNode.dir [("notes.md", ExtNode.file "ext")])],
          some [("docs", ExtNode.dir [])], []⟩ "docs/notes.md" =
      (Except.ok { name := "notes.md", fullPath := "docs/notes.md",
                   isDirectory := false, isFile := true, isDirty := none,
                   content := "ext", size := 3 },
       ⟨[("docs", ExtNode.dir [("notes.md", ExtNode.file "ext")])],
        some [("docs", ExtNode.dir [])], []⟩) := by
  have h := read_staged_then_close_spec
    ⟨[("docs", ExtNode.dir [("notes.md", ExtNode.file "ext")])],
     some [("docs", ExtNode.dir [("notes.md", ExtNode.file "draft")])], []⟩
    "docs/notes.md" "docs" "notes.md" "ext" "draft"
    [("docs", ExtNode.dir [("notes.md", ExtNode.file "draft")])]
    [("notes.md", ExtNode.file "draft")]
    rfl rfl rfl (by decide) rfl rfl rfl rfl (by decide) rfl
  exact ⟨h.1, h.2.2.1⟩


/-! ## edit (staging write) and write (external write) -/

/-- The staging-store write path of `edit`: descend with
`getDirectoryHandle(segment, { create: true })` through the draft tree
(directories are created as the walk proceeds and kept even on a later
failure), then `getFileHandle(name, { create: true })` and replace the
file's content.  The boolean reports success; `false` marks a
type-mismatch rejection (a file blocking a directory segment, or a
directory occupying the file name). -/
def ensureWriteFile (content : String) : List String → String → DirE → DirE × Bool
  | [], name, d =>
    match findE d name with
    | some (ExtNode.dir _) => (d, false)
    | _ => (setE d name (ExtNode.file content), true)
  | seg :: rest, name, d =>
    match findE d seg with
    | some (ExtNode.file _) => (d, false)
    | some (ExtNode.dir es) =>
      let r := ensureWriteFile content rest name es
      (setE d seg (ExtNode.dir r.1), r.2)
    | none =>
      let r := ensureWriteFile content rest name []
      (setE d seg (ExtNode.dir r.1), r.2)

/-- `edit(path, content)`: under the per-path lock, write the content to the
staging store, creating the draft root and intermediate directories. -/
def edit (st : FPState) (path content : String) : Except FPError Unit × FPState :=
  if (findE st.locks path).isSome then (Except.error (FPError.lockConflict path), st)
  else
    let segs := pathToSegments path
    let name := segs.getLastD ""
    let dirSegs := segs.dropLast
    let d := st.opfs.getD []
    let r := ensureWriteFile content dirSegs name d
    if r.2 then (Except.ok (), { st with opfs := some r.1 })
    else (Except.error FPError.typeMismatch, { st with opfs := some r.1 })

/-- Replace the content of the file reached by walking `segs` from a node
(`write`'s resolution plus `createWritable().write`): the final node must be
an existing file, non-terminal nodes must be directories. -/
def writeNode (content : String) : List String → ExtNode → Except FPError ExtNode
  | [], ExtNode.file _ => Except.ok (ExtNode.file content)
  | [], ExtNode.dir _ => Except.error FPError.cannotWriteDirectory
  | _ :: _, ExtNode.file _ => Except.error FPError.invalidPath
  | seg :: rest, ExtNode.dir es =>
    match findE es seg with
    | none => Except.error FPError.invalidPath
    | some h2 => (writeNode content rest h2).map (fun h3 => ExtNode.dir (setE es seg h3))

/-- Resolve an external path and overwrite the file there. -/
def writeExtAt (reg : DirE) (path content : String) : Except FPError DirE :=
  match pathToSegments path with
  | [] => Except.error FPError.rootRequired
  | root :: rest =>
    if root = "" then Except.error FPError.rootRequired
    else
      match findE reg root with
      | none => Except.error FPError.rootNotFound
      | some h => (writeNode content rest h).map (fun h2 => setE reg root h2)

/-- `write(path, content)`: under the per-path lock, resolve the path in the
EXTERNAL store (no `type: "opfs"` is passed) and overwrite the file there.
The d.ts comment documents this operation as "Writes to FS". -/
def write (st : FPState) (path content : String) : Except FPError Unit × FPState :=
  if (findE st.locks path).isSome then (Except.error (FPError.lockConflict path), st)
  else
    match writeExtAt st.registry path content with
    | Except.ok reg2 => (Except.ok (), { st with registry := reg2 })
    | Except.error e => (Except.error e, st)

/-- Observer: the text content of the external file a path resolves to. -/
def resolveContent (reg : DirE) (path : String) : Option String :=
  match getHandleExt reg path with
  | Except.ok (ExtNode.file c) => some c
  | _ => none

/-- Observer: the text content of the staged file a path resolves to. -/
def stagedAt (st : FPState) (path : String) : Option String :=
  match (getHandleOpfs st.opfs path).2 with
  | Except.ok (ExtNode.file c) => some c
  | _ => none

/-- C3 counterexample: `write("docs/a.txt", "new")` succeeds and CHANGES the
external store's node (old content "old" becomes "new"), refuting the claim
that `write` stores into staging and never touches the external store. -/
theorem write_touches_external :
    (write ⟨[("docs", ExtNode.dir [("a.txt", ExtNode.file "old")])], none, []⟩
        "docs/a.txt" "new").1 = Except.ok () ∧
    resolveContent
        (write ⟨[("docs", ExtNode.dir [("a.txt", ExtNode.file "old")])], none, []⟩
          "docs/a.txt" "new").2.registry "docs/a.txt" = some "new" ∧
    resolveContent [("docs", ExtNode.dir [("a.txt", ExtNode.file "old")])]
        "docs/a.txt" = some "old" ∧
    ("new" : String) ≠ "old" :=
  ⟨rfl, rfl, rfl, by decide⟩

theorem ensureWriteFile_descend (content : String) :
    ∀ (ds : List String) (n : String) (d : DirE),
      (ensureWriteFile content ds n d).2 = true →
      descend (ExtNode.dir (ensureWriteFile content ds n d).1) (ds ++ [n]) =
        Except.ok (ExtNode.file content) := by
  intro ds
  induction ds with
  | nil =>
    intro n d h
    cases hf : findE d n with
    | none =>
      simp only [ensureWriteFile, hf, List.nil_append]
      simp [descend, findE_setE_self]
    | some node =>
      cases node with
      | file fc =>
        simp only [ensureWriteFile, hf, List.nil_append]
        simp [descend, findE_setE_self]
      | dir es =>
        simp [ensureWriteFile, hf] at h
  | cons seg rest ih =>
    intro n d h
    cases hf : findE d seg with
    | none =>
      simp only [ensureWriteFile, hf] at h ⊢
      simp only [List.cons_append, descend, findE_setE_self]
      exact ih n [] h
    | some node =>
      cases node with
      | file fc => simp [ensureWriteFile, hf] at h
      | dir es =>
        simp only [ensureWriteFile, hf] at h ⊢
        simp only [List.cons_append, descend, findE_setE_self]
        exact ih n es h

/-- C3 (amended): it is `edit` that stores content into the staging store —
on success the staged node at the path holds the new content — and no
`edit` call ever changes the external registry; `write`, by contrast,
writes through to the external store (see `write_touches_external`). -/
theorem edit_stages_only (st : FPState) (path content : String)
    (ds : List String) (n : String)
    (hsegs : pathToSegments path = ds ++ [n])
    (hhead : (ds ++ [n]).headD "" ≠ "")
    (hlock : findE st.locks path = none)
    (hok : (ensureWriteFile content ds n (st.opfs.getD [])).2 = true) :
    edit st path content =
      (Except.ok (),
       { st with opfs := some (ensureWriteFile content ds n (st.opfs.getD [])).1 }) ∧
    stagedAt (edit st path content).2 path = some content ∧
    (∀ (st2 : FPState) (p c : String), (edit st2 p c).2.registry = st2.registry) := by
  have hname : (ds ++ [n]).getLastD "" = n := by
    rw [List.getLastD_eq_getLast?, List.getLast?_concat]
    rfl
  have hdrop : (ds ++ [n]).dropLast = ds := by
    simp
  have hedit : edit st path content =
      (Except.ok (),
       { st with opfs := some (ensureWriteFile content ds n (st.opfs.getD [])).1 }) := by
    unfold edit
    rw [hlock]
    simp only [Option.isSome_none, Bool.false_eq_true, if_false, hsegs, hname, hdrop, hok,
      if_true]
  refine ⟨hedit, ?_, ?_⟩
  · rw [hedit]
    have hdes := ensureWriteFile_descend content ds n (st.opfs.getD []) hok
    cases ds with
    | nil =>
      simp only [List.nil_append, List.headD] at hhead hdes
      simp only [stagedAt, getHandleOpfs, hsegs, List.nil_append]
      rw [if_neg hhead]
      simp only [Option.getD_some]
      rw [hdes]
    | cons d0 ds2 =>
      simp only [List.cons_append, List.headD] at hhead hdes
      simp only [stagedAt, getHandleOpfs, hsegs, List.cons_append]
      rw [if_neg hhead]
      simp only [Option.getD_some]
      rw [hdes]
  · intro st2 p c
    unfold edit
    by_cases h2 : (findE st2.locks p).isSome
    · simp [h2]
    · simp only [h2, if_false]
      cases hb : (ensureWriteFile c (pathToSegments p).dropLast
          ((pathToSegments p).getLastD "") (st2.opfs.getD [])).2 <;>
        simp [hb]

/-- Witness for `edit_stages_only` at a concrete state. -/
theorem edit_stages_only_witness :
    edit ⟨[("docs", ExtNode.dir [("a.txt", ExtNode.file "x")])], none, []⟩
        "docs/notes.md" "draft" =
      (Except.ok (),
       ⟨[("docs", ExtNode.dir [("a.txt", ExtNode.file "x")])],
        some [("docs", ExtNode.dir [("notes.md", ExtNode.file "draft")])], []⟩) ∧
    stagedAt (edit ⟨[("docs", ExtNode.dir [("a.txt", ExtNode.file "x")])], none, []⟩
        "docs/notes.md" "draft").2 "docs/notes.md" = some "draft" := by
  have h := edit_stages_only
    ⟨[("docs", ExtNode.dir [("a.txt", ExtNode.file "x")])], none, []⟩
    "docs/notes.md" "draft" ["docs"] "notes.md" rfl (by decide) rfl rfl
  exact ⟨h.1, h.2.1⟩

/-! ## save (commit a draft) and openRoot -/

/-- The chunks a file's stream yields (the reader side of
`streamToAsyncIterator`). -/
def chunksOf (s : String) : List String :=
  s.data.map (fun c => String.mk [c])

/-- The writer side of the chunked copy loop in `save` and `copy`: the
destination receives the concatenation of the streamed chunks. -/
def copyStream (s : String) : String :=
  (chunksOf s).foldl (fun acc c => acc ++ c) ""

theorem mk_append_mk (a b : List Char) :
    String.mk a ++ String.mk b = String.mk (a ++ b) := rfl

theorem copyStream_eq (s : String) : copyStream s = s := by
  have key : ∀ (l : List Char) (acc : String),
      (l.map (fun c => String.mk [c])).foldl (fun a c => a ++ c) acc =
        acc ++ String.mk l := by
    intro l
    induction l with
    | nil =>
      intro acc
      obtain ⟨ad⟩ := acc
      simp [mk_append_mk]
    | cons c t ih =>
      intro acc
      simp only [List.map_cons, List.foldl_cons]
      rw [ih]
      obtain ⟨ad⟩ := acc
      simp [mk_append_mk]
  obtain ⟨sd⟩ := s
  unfold copyStream chunksOf
  rw [key]
  rw [show ("" : String) = String.mk [] from rfl, mk_append_mk]
  simp

/-- `save(sourcePath, { targetPath? })`: under the source-path lock, the
final path (`targetPath || sourcePath`) is run through the NAME validator,
the source must resolve to a staged file, the final path must resolve to an
existing external file, and the staged bytes are streamed into it chunk by
chunk. -/
def save (st : FPState) (sourcePath : String) (targetPath? : Option String) :
    Except FPError Unit × FPState :=
  if (findE st.locks sourcePath).isSome then
    (Except.error (FPError.lockConflict sourcePath), st)
  else
    let finalPath :=
      match targetPath? with
      | some t => if t = "" then sourcePath else t
      | none => sourcePath
    if finalPath ≠ "" ∧ (validateDirectoryName finalPath).isValid = false then
      (Except.error (FPError.invalidName
        ((validateDirectoryName finalPath).error.getD "Invalid target path")), st)
    else
      let p := getHandleOpfs st.opfs sourcePath
      let st2 : FPState := { st with opfs := p.1 }
      match p.2 with
      | Except.error e => (Except.error e, st2)
      | Except.ok (ExtNode.dir _) => (Except.error FPError.unableToSave, st2)
      | Except.ok (ExtNode.file sc) =>
        match getHandleExt st2.registry finalPath with
        | Except.error e => (Except.error e, st2)
        | Except.ok (ExtNode.dir _) => (Except.error FPError.invalidTargetPath, st2)
        | Except.ok (ExtNode.file _) =>
          match writeExtAt st2.registry finalPath (copyStream sc) with
          | Except.ok reg2 => (Except.ok (), { st2 with registry := reg2 })
          | Except.error e => (Except.error e, st2)

/-- C2: the commit path is broken in the worker.  `save` runs the
single-segment NAME validator over the whole final path, so every nested
path (every path containing a slash) is rejected as an invalid name even
when a staged draft and the external target file both exist — the claimed
write-draft / save / close / read round trip can never complete.  (For the
only paths that pass the validator — single-segment root files —
`close(P)` then fails with a root-required error, see the `close` example
above.) -/
theorem save_rejects_nested_path :
    save ⟨[("docs", ExtNode.dir [("notes.md", ExtNode.file "old")])],
          some [("docs", ExtNode.dir [("notes.md", ExtNode.file "new")])], []⟩
        "docs/notes.md" none =
      (Except.error (FPError.invalidName "Name contains invalid characters"),
       ⟨[("docs", ExtNode.dir [("notes.md", ExtNode.file "old")])],
        some [("docs", ExtNode.dir [("notes.md", ExtNode.file "new")])], []⟩) := rfl

example :
    save ⟨[("notes.md", ExtNode.file "old")],
          some [("notes.md", ExtNode.file "new")], []⟩ "notes.md" none =
      (Except.ok (), ⟨[("notes.md", ExtNode.file "new")],
                      some [("notes.md", ExtNode.file "new")], []⟩) := rfl

/-- The entry record `open` and `list` return. -/
structure FPEntry where
  name : String
  fullPath : String
  isDirectory : Bool
  isFile : Bool

/-- `open(handle)` (named `openRoot` here since `open` is reserved in Lean):
persist the handle in the registry under its name (`"untitled"` when
empty), then remove the `draft-store` directory WITHOUT `recursive: true` —
which, per the File System API, rejects with a not-found error when the
draft root does not exist and with an invalid-modification error when it is
non-empty. -/
def openRoot (st : FPState) (hname : String) (h : ExtNode) :
    Except FPError FPEntry × FPState :=
  let key := if hname = "" then "untitled" else hname
  let st1 : FPState := { st with registry := setE st.registry key h }
  match st1.opfs with
  | none => (Except.error FPError.notFound, st1)
  | some d =>
    if d.isEmpty then
      (Except.ok { name := key, fullPath := key,
                   isDirectory := h.isDir, isFile := h.isFile },
       { st1 with opfs := none })
    else (Except.error FPError.invalidModification, st1)

/-- C5: `open` does NOT clear the staging area when any draft exists.  With
a draft nested under `docs/`, `open(handle)` first persists the handle in
the registry and then fails with an invalid-modification error from the
non-recursive `removeEntry` — the staged drafts all survive.  (Compare
`close()`, which passes `recursive: true` for the same removal; the code's
own comment reads "CLEAR out OPFS", so the claim matches the intent and
the code drops the recursive flag.) -/
theorem openRoot_fails_to_clear_staging :
    openRoot ⟨[], some [("docs", ExtNode.dir [("notes.md", ExtNode.file "draft")])], []⟩
        "myroot" (ExtNode.dir []) =
      (Except.error FPError.invalidModification,
       ⟨[("myroot", ExtNode.dir [])],
        some [("docs", ExtNode.dir [("notes.md", ExtNode.file "draft")])], []⟩) := rfl

example :
    openRoot ⟨[], none, []⟩ "myroot" (ExtNode.dir []) =
      (Except.error FPError.notFound, ⟨[("myroot", ExtNode.dir [])], none, []⟩) := rfl

/-! ## createFile and createDirectory -/

/-- `getFileHandle(name, { create })` on a directory's entries: an existing
file is returned as-is, a directory under that name is a type mismatch, and
a missing entry is created as an empty file only when `create` is set. -/
def getFileHandleE (es : DirE) (name : String) (create : Bool) :
    Except FPError DirE :=
  match findE es name with
  | some (ExtNode.file _) => Except.ok es
  | some (ExtNode.dir _) => Except.error FPError.typeMismatch
  | none =>
    if create then Except.ok (setE es name (ExtNode.file ""))
    else Except.error FPError.notFound

/-- `getDirectoryHandle(name, { create })`, dually. -/
def getDirectoryHandleE (es : DirE) (name : String) (create : Bool) :
    Except FPError DirE :=
  match findE es name with
  | some (ExtNode.dir _) => Except.ok es
  | some (ExtNode.file _) => Except.error FPError.typeMismatch
  | none =>
    if create then Except.ok (setE es name (ExtNode.dir []))
    else Except.error FPError.notFound

/-- `createFile(path, options)`: under the per-path lock, split off the
final name, validate it, resolve the parent in the external store, and call
`getFileHandle(name, { create: options?.force })`. -/
def createFile (st : FPState) (path : String) (force : Bool) :
    Except FPError Unit × FPState :=
  if (findE st.locks path).isSome then (Except.error (FPError.lockConflict path), st)
  else
    let parts := jsSplit path
    let name := parts.getLastD ""
    let pp := joinSep "/" parts.dropLast
    let parentPath := if pp = "" then "/" else pp
    let v := validateDirectoryName name
    if v.isValid = false then
      (Except.error (FPError.invalidName (v.error.getD "Invalid file name")), st)
    else
      match getHandleExt st.registry parentPath with
      | Except.error e => (Except.error e, st)
      | Except.ok (ExtNode.file _) => (Except.error FPError.cannotCreateInFile, st)
      | Except.ok (ExtNode.dir _) =>
        match updateExtAt st.registry parentPath
            (fun es => getFileHandleE es name force) with
        | Except.ok reg2 => (Except.ok (), { st with registry := reg2 })
        | Except.error e => (Except.error e, st)

/-- `createDirectory(path, options)`, dually via `getDirectoryHandle`. -/
def createDirectory (st : FPState) (path : String) (force : Bool) :
    Except FPError Unit × FPState :=
  if (findE st.locks path).isSome then (Except.error (FPError.lockConflict path), st)
  else
    let parts := jsSplit path
    let name := parts.getLastD ""
    let pp := joinSep "/" parts.dropLast
    let parentPath := if pp = "" then "/" else pp
    let v := validateDirectoryName name
    if v.isValid = false then
      (Except.error (FPError.invalidName (v.error.getD "Invalid directory name")), st)
    else
      match getHandleExt st.registry parentPath with
      | Except.error e => (Except.error e, st)
      | Except.ok (ExtNode.file _) => (Except.error FPError.cannotCreateInFile, st)
      | Except.ok (ExtNode.dir _) =>
        match updateExtAt st.registry parentPath
            (fun es => getDirectoryHandleE es name force) with
        | Except.ok reg2 => (Except.ok (), { st with registry := reg2 })
        | Except.error e => (Except.error e, st)

/-- C8: when the final path segment fails name validation, `createFile` and
`createDirectory` fail with the invalid-name error and leave the state —
external store, staging store and lock table — exactly as it was. -/
theorem create_invalidName_no_mutation (st : FPState) (path : String) (force : Bool)
    (hlock : findE st.locks path = none)
    (hname : (validateDirectoryName ((jsSplit path).getLastD "")).isValid = false) :
    createFile st path force =
      (Except.error (FPError.invalidName
        ((validateDirectoryName ((jsSplit path).getLastD "")).error.getD
          "Invalid file name")), st) ∧
    createDirectory st path force =
      (Except.error (FPError.invalidName
        ((validateDirectoryName ((jsSplit path).getLastD "")).error.getD
          "Invalid directory name")), st) := by
  constructor
  · unfold createFile
    rw [hlock]
    simp only [Option.isSome_none, Bool.false_eq_true, if_false, hname, if_true]
  · unfold createDirectory
    rw [hlock]
    simp only [Option.isSome_none, Bool.false_eq_true, if_false, hname, if_true]

/-- Witness for `create_invalidName_no_mutation` at path `r/..`. -/
theorem create_invalidName_no_mutation_witness :
    createFile ⟨[("r", ExtNode.dir [])], none, []⟩ "r/.." false =
      (Except.error (FPError.invalidName "Name must be between 1 and 255 characters"),
       ⟨[("r", ExtNode.dir [])], none, []⟩) ∧
    createDirectory ⟨[("r", ExtNode.dir [])], none, []⟩ "r/.." false =
      (Except.error (FPError.invalidName "Name must be between 1 and 255 characters"),
       ⟨[("r", ExtNode.dir [])], none, []⟩) := by
  have h := create_invalidName_no_mutation
    ⟨[("r", ExtNode.dir [])], none, []⟩ "r/.." false rfl rfl
  exact h

/-- C10: with a validating name and a parent that resolves to an external
directory, `createFile`/`createDirectory` forward `options?.force` as the
`create` flag of the handle lookup: without force they succeed exactly when
a node of the requested kind already exists (never creating anything, and
failing with a not-found error when the name is absent); with force the
missing node is created, an existing node of the requested kind is
accepted, and a node of the other kind is still a type-mismatch failure. -/
theorem create_force_semantics (st : FPState) (path r name : String)
    (es : DirE) (force : Bool)
    (hlock : findE st.locks path = none)
    (hsplit : jsSplit path = [r, name])
    (hr : pathToSegments r = [r])
    (hr0 : r ≠ "")
    (hreg : findE st.registry r = some (ExtNode.dir es))
    (hname : (validateDirectoryName name).isValid = true) :
    (createFile st path force =
      match findE es name with
      | some (ExtNode.file _) => (Except.ok (), st)
      | some (ExtNode.dir _) => (Except.error FPError.typeMismatch, st)
      | none =>
        if force then
          (Except.ok (),
           { st with
             registry := setE st.registry r (ExtNode.dir (setE es name (ExtNode.file ""))) })
        else (Except.error FPError.notFound, st)) ∧
    (createDirectory st path force =
      match findE es name with
      | some (ExtNode.dir _) => (Except.ok (), st)
      | some (ExtNode.file _) => (Except.error FPError.typeMismatch, st)
      | none =>
        if force then
          (Except.ok (),
           { st with
             registry := setE st.registry r (ExtNode.dir (setE es name (ExtNode.dir []))) })
        else (Except.error FPError.notFound, st)) := by
  have hlast : ([r, name]).getLastD "" = name := rfl
  have hdrop : ([r, name]).dropLast = [r] := rfl
  have hjoin : joinSep "/" [r] = r := rfl
  have hv : ((validateDirectoryName name).isValid = false) = False := by
    simp [hname]
  constructor
  · unfold createFile
    rw [hlock]
    simp only [Option.isSome_none, Bool.false_eq_true, if_false, hsplit, hlast,
      hdrop, hjoin, hv, if_neg hr0]
    simp only [getHandleExt, updateExtAt, hr]
    rw [if_neg hr0, if_neg hr0]
    simp only [hreg, descend, updateDirAt]
    cases hf : findE es name with
    | some node =>
      cases node with
      | file fc => simp [getFileHandleE, hf, Except.map, setE_of_findE _ _ _ hreg]
      | dir d2 => simp [getFileHandleE, hf, Except.map]
    | none =>
      cases force <;> simp [getFileHandleE, hf, Except.map]
  · unfold createDirectory
    rw [hlock]
    simp only [Option.isSome_none, Bool.false_eq_true, if_false, hsplit, hlast,
      hdrop, hjoin, hv, if_neg hr0]
    simp only [getHandleExt, updateExtAt, hr]
    rw [if_neg hr0, if_neg hr0]
    simp only [hreg, descend, updateDirAt]
    cases hf : findE es name with
    | some node =>
      cases node with
      | file fc => simp [getDirectoryHandleE, hf, Except.map]
      | dir d2 => simp [getDirectoryHandleE, hf, Except.map, setE_of_findE _ _ _ hreg]
    | none =>
      cases force <;> simp [getDirectoryHandleE, hf, Except.map]

/-- Witness for `create_force_semantics`: without force an existing file
satisfies `createFile` and fails `createDirectory` with a type mismatch. -/
theorem create_force_semantics_witness :
    createFile ⟨[("r", ExtNode.dir [("f.txt", ExtNode.file "x")])], none, []⟩
        "r/f.txt" false =
      (Except.ok (), ⟨[("r", ExtNode.dir [("f.txt", ExtNode.file "x")])], none, []⟩) ∧
    createDirectory ⟨[("r", ExtNode.dir [("f.txt", ExtNode.file "x")])], none, []⟩
        "r/f.txt" false =
      (Except.error FPError.typeMismatch,
       ⟨[("r", ExtNode.dir [("f.txt", ExtNode.file "x")])], none, []⟩) := by
  have h := create_force_semantics
    ⟨[("r", ExtNode.dir [("f.txt", ExtNode.file "x")])], none, []⟩
    "r/f.txt" "r" "f.txt" [("f.txt", ExtNode.file "x")] false
    rfl rfl rfl (by decide) rfl (by decide)
  exact h

/-! ## list: directory enumeration and its ordering contract -/

/-- Lexicographic less-or-equal on character lists: the model of the
`localeCompare`-based tie-break of `list`'s comparator. -/
def listLe : List Char → List Char → Bool
  | [], _ => true
  | _ :: _, [] => false
  | a :: as, b :: bs => if a = b then listLe as bs else decide (a < b)

/-- Lexicographic less-or-equal on strings. -/
def strLe (a b : String) : Bool := listLe a.data b.data

theorem listLe_total : ∀ (a b : List Char), listLe a b = true ∨ listLe b a = true := by
  intro a
  induction a with
  | nil => intro b; left; rfl
  | cons a1 as ih =>
    intro b
    cases b with
    | nil => right; rfl
    | cons b1 bs =>
      by_cases h : a1 = b1
      · subst h
        simp only [listLe, if_pos rfl]
        exact ih bs
      · have h2 : b1 ≠ a1 := fun e => h e.symm
        rcases lt_or_gt_of_ne h with hlt | hgt
        · left
          simp [listLe, h, hlt]
        · right
          simp [listLe, h2, hgt]

theorem listLe_trans : ∀ (a b c : List Char),
    listLe a b = true → listLe b c = true → listLe a c = true := by
  intro a
  induction a with
  | nil => intro b c h1 h2; rfl
  | cons a1 as ih =>
    intro b c h1 h2
    cases b with
    | nil => simp [listLe] at h1
    | cons b1 bs =>
      cases c with
      | nil => simp [listLe] at h2
      | cons c1 cs =>
        by_cases hab : a1 = b1
        · subst hab
          simp only [listLe, if_pos rfl] at h1
          by_cases hac : a1 = c1
          · subst hac
            simp only [listLe, if_pos rfl] at h2 ⊢
            exact ih bs cs h1 h2
          · simp only [listLe, if_neg hac] at h2 ⊢
            exact h2
        · simp only [listLe, if_neg hab, decide_eq_true_eq] at h1
          by_cases hbc : b1 = c1
          · subst hbc
            have hac : a1 ≠ b1 := hab
            simp only [listLe, if_neg hac, decide_eq_true_eq]
            exact h1
          · simp only [listLe, if_neg hbc, decide_eq_true_eq] at h2
            have hlt : a1 < c1 := lt_trans h1 h2
            simp only [listLe, if_neg (ne_of_lt hlt), decide_eq_true_eq]
            exact hlt

theorem listLe_antisymm : ∀ (a b : List Char),
    listLe a b = true → listLe b a = true → a = b := by
  intro a
  induction a with
  | nil =>
    intro b h1 h2
    cases b with
    | nil => rfl
    | cons b1 bs => simp [listLe] at h2
  | cons a1 as ih =>
    intro b h1 h2
    cases b with
    | nil => simp [listLe] at h1
    | cons b1 bs =>
      by_cases h : a1 = b1
      · subst h
        simp only [listLe, if_pos rfl] at h1 h2
        rw [ih bs h1 h2]
      · have h2n : b1 ≠ a1 := fun e => h e.symm
        simp only [listLe, if_neg h, decide_eq_true_eq] at h1
        simp only [listLe, if_neg h2n, decide_eq_true_eq] at h2
        exact absurd h1 (lt_asymm h2)

theorem strLe_total (a b : String) : strLe a b = true ∨ strLe b a = true :=
  listLe_total a.data b.data

theorem strLe_trans (a b c : String) (h1 : strLe a b = true)
    (h2 : strLe b c = true) : strLe a c = true :=
  listLe_trans a.data b.data c.data h1 h2

theorem strLe_antisymm (a b : String) (h1 : strLe a b = true)
    (h2 : strLe b a = true) : a = b :=
  String.ext_iff.mpr (listLe_antisymm a.data b.data h1 h2)

/-- The sort comparator of `list` as a less-or-equal test: directories come
before files, and entries of the same kind compare by name. -/
def entryLE (a b : FPEntry) : Bool :=
  if a.isDirectory && !b.isDirectory then true
  else if !a.isDirectory && b.isDirectory then false
  else strLe a.name b.name

theorem entryLE_total (a b : FPEntry) : entryLE a b = true ∨ entryLE b a = true := by
  unfold entryLE
  cases ha : a.isDirectory <;> cases hb : b.isDirectory <;>
    simp [strLe_total a.name b.name]

theorem entryLE_trans (a b c : FPEntry) (h1 : entryLE a b = true)
    (h2 : entryLE b c = true) : entryLE a c = true := by
  unfold entryLE at h1 h2 ⊢
  cases ha : a.isDirectory <;> cases hb : b.isDirectory <;>
      cases hc : c.isDirectory <;>
    simp_all <;> exact strLe_trans _ _ _ h1 h2

/-- Stable insertion into a sorted list (the model of the stable
`Array.prototype.sort` with `list`'s comparator). -/
def insertEntry (x : FPEntry) : List FPEntry → List FPEntry
  | [] => [x]
  | y :: r => if entryLE x y then x :: y :: r else y :: insertEntry x r

/-- Stable sort by `entryLE`. -/
def sortEntries : List FPEntry → List FPEntry
  | [] => []
  | x :: r => insertEntry x (sortEntries r)

theorem insertEntry_perm (x : FPEntry) (l : List FPEntry) :
    (insertEntry x l).Perm (x :: l) := by
  induction l with
  | nil => simp [insertEntry]
  | cons y r ih =>
    by_cases h : entryLE x y
    · simp [insertEntry, h]
    · simp only [insertEntry, if_neg h]
      exact (ih.cons y).trans (List.Perm.swap x y r)

theorem sortEntries_perm (l : List FPEntry) : (sortEntries l).Perm l := by
  induction l with
  | nil => simp [sortEntries]
  | cons x r ih =>
    exact (insertEntry_perm x (sortEntries r)).trans (ih.cons x)

theorem pairwise_insertEntry (x : FPEntry) (l : List FPEntry)
    (hl : l.Pairwise (fun a b => entryLE a b = true)) :
    (insertEntry x l).Pairwise (fun a b => entryLE a b = true) := by
  induction l with
  | nil => simp [insertEntry]
  | cons y r ih =>
    rw [List.pairwise_cons] at hl
    by_cases h : entryLE x y = true
    · rw [insertEntry, if_pos h, List.pairwise_cons]
      refine ⟨?_, List.pairwise_cons.mpr ⟨hl.1, hl.2⟩⟩
      intro z hz
      rcases List.mem_cons.mp hz with hzy | hzr
      · rw [hzy]
        exact h
      · exact entryLE_trans x y z h (hl.1 z hzr)
    · rw [insertEntry, if_neg h, List.pairwise_cons]
      refine ⟨?_, ih hl.2⟩
      intro z hz
      have hz2 : z = x ∨ z ∈ r := by
        have hm := (insertEntry_perm x r).mem_iff.mp hz
        simpa using hm
      rcases hz2 with rfl | hz2
      · rcases entryLE_total z y with h1 | h1
        · exact absurd h1 h
        · exact h1
      · exact hl.1 z hz2

theorem sortEntries_pairwise (l : List FPEntry) :
    (sortEntries l).Pairwise (fun a b => entryLE a b = true) := by
  induction l with
  | nil => simp [sortEntries]
  | cons x r ih => exact pairwise_insertEntry x (sortEntries r) ih

theorem sorted_perm_eq {α : Type} {r : α → α → Prop} :
    ∀ (l1 l2 : List α), l1.Perm l2 → l1.Pairwise r → l2.Pairwise r →
      (∀ a ∈ l1, ∀ b ∈ l1, r a b → r b a → a = b) → l1 = l2 := by
  intro l1
  induction l1 with
  | nil =>
    intro l2 hp _ _ _
    exact (hp.symm.eq_nil).symm
  | cons a t1 ih =>
    intro l2 hp hs1 hs2 hanti
    cases l2 with
    | nil => exact absurd hp.eq_nil (by simp)
    | cons b t2 =>
      rw [List.pairwise_cons] at hs1 hs2
      by_cases hab : a = b
      · subst hab
        have ht : t1.Perm t2 := hp.cons_inv
        have := ih t2 ht hs1.2 hs2.2
          (fun x hx y hy hr1 hr2 =>
            hanti x (List.mem_cons_of_mem a hx) y (List.mem_cons_of_mem a hy) hr1 hr2)
        rw [this]
      · exfalso
        have hain : a ∈ b :: t2 := hp.subset (List.mem_cons_self a t1)
        have hat2 : a ∈ t2 := by
          rcases List.mem_cons.mp hain with h1 | h1
          · exact absurd h1 hab
          · exact h1
        have hbin : b ∈ a :: t1 := hp.symm.subset (List.mem_cons_self b t2)
        have hbt1 : b ∈ t1 := by
          rcases List.mem_cons.mp hbin with h1 | h1
          · exact absurd h1.symm hab
          · exact h1
        have hr1 : r a b := hs1.1 b hbt1
        have hr2 : r b a := hs2.1 a hat2
        exact hab (hanti a (List.mem_cons_self a t1) b (List.mem_cons_of_mem a hbt1) hr1 hr2)

theorem mem_eq_of_nodup_keys {α : Type} (l : List (String × α))
    (hnd : (l.map Prod.fst).Nodup) (k : String) (v1 v2 : α)
    (h1 : (k, v1) ∈ l) (h2 : (k, v2) ∈ l) : v1 = v2 := by
  induction l with
  | nil => simp at h1
  | cons hd t ih =>
    obtain ⟨k0, x0⟩ := hd
    simp only [List.map_cons, List.nodup_cons] at hnd
    rcases List.mem_cons.mp h1 with e1 | m1 <;> rcases List.mem_cons.mp h2 with e2 | m2
    · injection e1 with hk1 hv1
      injection e2 with hk2 hv2
      rw [hv1, hv2]
    · exfalso
      injection e1 with hk1 hv1
      subst hk1
      exact hnd.1 (List.mem_map.mpr ⟨(k, v2), m2, rfl⟩)
    · exfalso
      injection e2 with hk2 hv2
      subst hk2
      exact hnd.1 (List.mem_map.mpr ⟨(k, v1), m1, rfl⟩)
    · exact ih hnd.2 m1 m2

/-- The entry a directory child produces in `list`'s enumeration loop. -/
def entryOfChild (path : String) (pr : String × ExtNode) : FPEntry :=
  { name := pr.1, fullPath := path ++ "/" ++ pr.1,
    isDirectory := pr.2.isDir, isFile := pr.2.isFile }

/-- `list(path)`: resolve the path in the external store, reject files,
enumerate the children and sort them directories-first, then by name. -/
def list (st : FPState) (path : String) : Except FPError (List FPEntry) :=
  match getHandleExt st.registry path with
  | Except.error e => Except.error e
  | Except.ok (ExtNode.file _) => Except.error FPError.cannotListFile
  | Except.ok (ExtNode.dir es) =>
    Except.ok (sortEntries (es.map (entryOfChild path)))

theorem entryLE_both_names (a b : FPEntry) (h1 : entryLE a b = true)
    (h2 : entryLE b a = true) : a.isDirectory = b.isDirectory ∧ a.name = b.name := by
  unfold entryLE at h1 h2
  cases ha : a.isDirectory <;> cases hb : b.isDirectory <;>
    rw [ha, hb] at h1 h2 <;> simp at h1 h2 <;>
    exact ⟨rfl, strLe_antisymm _ _ h1 h2⟩

/-- C9: `list` returns the directory's entries sorted directories-first and
in ascending lexicographic name order within each kind group; the output is
a permutation of the enumerated children; and the result is stable — any
enumeration order of the same children (entry names being unique within a
directory) produces the same sorted output, so repeated calls with no
intervening mutation return the same order. -/
theorem list_sorted_and_stable (st : FPState) (path : String) (es : DirE)
    (hres : getHandleExt st.registry path = Except.ok (ExtNode.dir es))
    (hnd : (es.map Prod.fst).Nodup) :
    list st path = Except.ok (sortEntries (es.map (entryOfChild path))) ∧
    (sortEntries (es.map (entryOfChild path))).Pairwise
      (fun a b => entryLE a b = true) ∧
    (sortEntries (es.map (entryOfChild path))).Perm (es.map (entryOfChild path)) ∧
    (∀ (st2 : FPState) (es2 : DirE),
        getHandleExt st2.registry path = Except.ok (ExtNode.dir es2) →
        es2.Perm es → list st2 path = list st path) := by
  refine ⟨by simp [list, hres], sortEntries_pairwise _, sortEntries_perm _, ?_⟩
  intro st2 es2 hres2 hperm
  simp only [list, hres, hres2]
  congr 1
  apply sorted_perm_eq _ _ ?_ (sortEntries_pairwise _) (sortEntries_pairwise _) ?_
  · exact (sortEntries_perm _).trans
      ((hperm.map (entryOfChild path)).trans (sortEntries_perm _).symm)
  · intro a ha b hb h1 h2
    have ha2 : a ∈ es2.map (entryOfChild path) := (sortEntries_perm _).subset ha
    have hb2 : b ∈ es2.map (entryOfChild path) := (sortEntries_perm _).subset hb
    obtain ⟨pa, hpa, rfl⟩ := List.mem_map.mp ha2
    obtain ⟨pb, hpb, rfl⟩ := List.mem_map.mp hb2
    have hnames := entryLE_both_names _ _ h1 h2
    have hkey : pa.1 = pb.1 := hnames.2
    have hnd2 : (es2.map Prod.fst).Nodup := by
      have hp2 : (es2.map Prod.fst).Perm (es.map Prod.fst) := hperm.map Prod.fst
      exact (hp2.nodup_iff).mpr hnd
    obtain ⟨ka, va⟩ := pa
    obtain ⟨kb, vb⟩ := pb
    simp only at hkey
    subst hkey
    have hv := mem_eq_of_nodup_keys es2 hnd2 ka va vb hpa hpb
    rw [hv]

/-- Witness for `list_sorted_and_stable`: a concrete directory sorts with
the subdirectory first and files in name order, and a permuted enumeration
of the same children lists identically. -/
theorem list_sorted_and_stable_witness :
    list ⟨[("r", ExtNode.dir [("b.txt", ExtNode.file "y"), ("a", ExtNode.dir []),
                              ("a.txt", ExtNode.file "x")])], none, []⟩ "r" =
      Except.ok
        [{ name := "a", fullPath := "r/a", isDirectory := true, isFile := false },
         { name := "a.txt", fullPath := "r/a.txt", isDirectory := false, isFile := true },
         { name := "b.txt", fullPath := "r/b.txt", isDirectory := false, isFile := true }] ∧
    list ⟨[("r", ExtNode.dir [("a", ExtNode.dir []), ("b.txt", ExtNode.file "y"),
                              ("a.txt", ExtNode.file "x")])], none, []⟩ "r" =
      list ⟨[("r", ExtNode.dir [("b.txt", ExtNode.file "y"), ("a", ExtNode.dir []),
                                ("a.txt", ExtNode.file "x")])], none, []⟩ "r" := by
  have h := list_sorted_and_stable
    ⟨[("r", ExtNode.dir [("b.txt", ExtNode.file "y"), ("a", ExtNode.dir []),
                         ("a.txt", ExtNode.file "x")])], none, []⟩ "r"
    [("b.txt", ExtNode.file "y"), ("a", ExtNode.dir []), ("a.txt", ExtNode.file "x")]
    rfl (by decide)
  refine ⟨h.1, ?_⟩
  exact h.2.2.2
    ⟨[("r", ExtNode.dir [("a", ExtNode.dir []), ("b.txt", ExtNode.file "y"),
                         ("a.txt", ExtNode.file "x")])], none, []⟩
    [("a", ExtNode.dir []), ("b.txt", ExtNode.file "y"), ("a.txt", ExtNode.file "x")]
    rfl (List.Perm.swap _ _ _)

/-! ## copy with auto-rename on collision -/

/-- The renamed target filename `copy` builds on collision: the name is
split on dots and the random suffix is spliced in before the extension,
giving NAME-SUFFIX.EXTENSIONS (a dot is appended even when the original
name has no extension). -/
def renameOf (tname rand : String) : String :=
  let ps := (splitChar '.' tname.data).map String.mk
  ps.headD "" ++ "-" ++ rand ++ "." ++ joinSep "." ps.tail

example : renameOf "b.txt" "zzzzzzz" = "b-zzzzzzz.txt" := rfl
example : renameOf "b.tar.gz" "q1w2e3r" = "b-q1w2e3r.tar.gz" := rfl

/-- `getFileHandle(targetName, { create })` followed by streaming the
source content into the freshly opened writable (the write step of
`copy`): an existing file is overwritten, a directory under the name is a
type mismatch, and a missing entry is created only when `create` is set. -/
def copyWriteE (es : DirE) (name content : String) (create : Bool) :
    Except FPError DirE :=
  match findE es name with
  | some (ExtNode.file _) => Except.ok (setE es name (ExtNode.file content))
  | some (ExtNode.dir _) => Except.error FPError.typeMismatch
  | none =>
    if create then Except.ok (setE es name (ExtNode.file content))
    else Except.error FPError.notFound

/-- `copy(sourcePath, targetPath, options)`: under the target-path lock,
check whether the target already resolves to a file and, if so, swap in the
renamed target name; resolve the source (must be a file) and the target's
parent (must be a directory); then `getFileHandle(targetName,
{ create: options?.force })` and stream the source's chunks across.
`rand` is the `Math.random().toString(36).slice(2, 9)` suffix drawn by
this call. -/
def copy (st : FPState) (sourcePath targetPath rand : String) (force : Bool) :
    Except FPError Unit × FPState :=
  if (findE st.locks targetPath).isSome then
    (Except.error (FPError.lockConflict targetPath), st)
  else
    let tsegs := pathToSegments targetPath
    let tname0 := tsegs.getLastD ""
    let tparent := joinSep "/" tsegs.dropLast
    let tname :=
      match getHandleExt st.registry targetPath with
      | Except.ok (ExtNode.file _) => renameOf tname0 rand
      | _ => tname0
    match getHandleExt st.registry sourcePath with
    | Except.error e => (Except.error e, st)
    | Except.ok src =>
      match getHandleExt st.registry tparent with
      | Except.error e => (Except.error e, st)
      | Except.ok tp =>
        match src, tp with
        | ExtNode.file a, ExtNode.dir _ =>
          match updateExtAt st.registry tparent
              (fun es => copyWriteE es tname (copyStream a) force) with
          | Except.ok reg2 => (Except.ok (), { st with registry := reg2 })
          | Except.error e => (Except.error e, st)
        | _, _ => (Except.error FPError.cannotCopyToFile, st)

/-- C6 counterexample: without `force: true`, a colliding `copy` FAILS
instead of producing the renamed file — after the auto-rename the handle
lookup runs with `create: options?.force`, i.e. `create: false`, and the
fresh random name does not exist, so the call rejects with a not-found
error and the state is unchanged. -/
theorem copy_collision_without_force_fails :
    copy ⟨[("r", ExtNode.dir [("a.txt", ExtNode.file "A"),
                              ("b.txt", ExtNode.file "B")])], none, []⟩
        "r/a.txt" "r/b.txt" "zzzzzzz" false =
      (Except.error FPError.notFound,
       ⟨[("r", ExtNode.dir [("a.txt", ExtNode.file "A"),
                            ("b.txt", ExtNode.file "B")])], none, []⟩) := rfl

/-- C6 (amended): with `force: true` (which the handle lookup's `create`
flag requires) and a random suffix whose renamed name is fresh in the
target directory, `copy(A, B)` onto an existing file B creates the file at
the renamed name — distinct from B's name — with content byte-for-byte
equal to A's streamed content, and leaves B's entry untouched. -/
theorem copy_autorename_with_force (st : FPState)
    (sourcePath targetPath rand r tname A B : String) (es : DirE)
    (hlock : findE st.locks targetPath = none)
    (hsegs : pathToSegments targetPath = [r, tname])
    (hr : pathToSegments r = [r])
    (hr0 : r ≠ "")
    (hreg : findE st.registry r = some (ExtNode.dir es))
    (htgt : findE es tname = some (ExtNode.file B))
    (hsrc : getHandleExt st.registry sourcePath = Except.ok (ExtNode.file A))
    (hfresh : findE es (renameOf tname rand) = none) :
    copy st sourcePath targetPath rand true =
      (Except.ok (),
       { st with
         registry := setE st.registry r
           (ExtNode.dir (setE es (renameOf tname rand) (ExtNode.file A))) }) ∧
    renameOf tname rand ≠ tname ∧
    findE (setE es (renameOf tname rand) (ExtNode.file A)) tname =
      some (ExtNode.file B) ∧
    findE (setE es (renameOf tname rand) (ExtNode.file A)) (renameOf tname rand) =
      some (ExtNode.file A) := by
  have hne : renameOf tname rand ≠ tname := by
    intro h
    rw [h, htgt] at hfresh
    simp at hfresh
  have hgt : getHandleExt st.registry targetPath = Except.ok (ExtNode.file B) := by
    simp [getHandleExt, hsegs, hr0, hreg, descend, htgt]
  have hp : getHandleExt st.registry r = Except.ok (ExtNode.dir es) := by
    simp [getHandleExt, hr, hr0, hreg, descend]
  refine ⟨?_, hne, ?_, ?_⟩
  · unfold copy
    rw [hlock]
    simp only [Option.isSome_none, Bool.false_eq_true, if_false, hsegs]
    rw [show ([r, tname]).getLastD "" = tname from rfl]
    rw [show ([r, tname]).dropLast = [r] from rfl]
    rw [show joinSep "/" [r] = r from rfl]
    rw [hgt, hsrc, hp]
    simp only [updateExtAt, hr]
    rw [if_neg hr0]
    simp only [hreg, updateDirAt, copyWriteE, hfresh, if_pos rfl, copyStream_eq,
      Except.map, if_true]
  · rw [findE_setE_ne _ _ _ _ hne]
    exact htgt
  · exact findE_setE_self _ _ _

/-- Witness for `copy_autorename_with_force` at a concrete store. -/
theorem copy_autorename_with_force_witness :
    copy ⟨[("r", ExtNode.dir [("a.txt", ExtNode.file "A"),
                              ("b.txt", ExtNode.file "B")])], none, []⟩
        "r/a.txt" "r/b.txt" "zzzzzzz" true =
      (Except.ok (),
       ⟨[("r", ExtNode.dir [("a.txt", ExtNode.file "A"),
                            ("b.txt", ExtNode.file "B"),
                            ("b-zzzzzzz.txt", ExtNode.file "A")])], none, []⟩) ∧
    ("b-zzzzzzz.txt" : String) ≠ "b.txt" := by
  have h := copy_autorename_with_force
    ⟨[("r", ExtNode.dir [("a.txt", ExtNode.file "A"),
                         ("b.txt", ExtNode.file "B")])], none, []⟩
    "r/a.txt" "r/b.txt" "zzzzzzz" "r" "b.txt" "A" "B"
    [("a.txt", ExtNode.file "A"), ("b.txt", ExtNode.file "B")]
    rfl rfl rfl (by decide) rfl rfl rfl rfl
  exact ⟨h.1, h.2.1⟩

end FileWorker
